import Mathlib

/-!
Verification of the audio recorder core (`src/audio_recorder_armed.py`).

The Python program is shallowly embedded: interleaved float samples become
rationals (one `ℚ` per mono sample, a pair `ℚ × ℚ` per stereo frame),
float arithmetic becomes exact `ℚ`/`ℝ` arithmetic, NumPy arrays become
lists, and the stateful GUI object becomes explicit state records.  Each
definition is annotated with the source lines it embeds.
-/

/-- A stereo sample: one (left, right) pair of a 2-channel interleaved
block, matching `channels = 2` fixed in `__init__` (line 38). -/
abbrev Sample := ℚ × ℚ

/-- Sum of squares of a mono sample sequence: the `audio_data**2` summed,
part of `np.mean(audio_data**2)` in `calculate_db` (line 513). -/
def sumSq (xs : List ℚ) : ℚ :=
  (xs.map (fun x => x * x)).sum

/-- Mean of squares, `np.mean(audio_data**2)` in `calculate_db` (line 513).
For the empty list ℚ-division by zero yields 0, but `calculate_db` never
reaches this case for an empty block (guarded at line 510). -/
def rmsSq (xs : List ℚ) : ℚ :=
  sumSq xs / xs.length

/-- Root-mean-square, `np.sqrt(np.mean(audio_data**2))` (line 513). -/
noncomputable def rms (xs : List ℚ) : ℝ :=
  Real.sqrt ((rmsSq xs : ℚ) : ℝ)

/-- `calculate_db` (lines 508-518): returns -100 for an empty block;
otherwise computes rms and returns `20 * log10 rms` when `rms > 0`,
else -100. -/
noncomputable def calculate_db (xs : List ℚ) : ℝ :=
  if xs.length = 0 then -100
  else if 0 < rms xs then 20 * Real.logb 10 (rms xs)
  else -100

theorem sumSq_nonneg (xs : List ℚ) : 0 ≤ sumSq xs := by
  refine List.sum_nonneg ?_
  intro x hx
  rcases List.mem_map.mp hx with ⟨y, _, rfl⟩
  exact mul_self_nonneg y

theorem rmsSq_nonneg (xs : List ℚ) : 0 ≤ rmsSq xs :=
  div_nonneg (sumSq_nonneg xs) (by exact_mod_cast Nat.zero_le xs.length)

theorem rms_nonneg (xs : List ℚ) : 0 ≤ rms xs :=
  Real.sqrt_nonneg _

theorem rms_eq_zero_iff (xs : List ℚ) : rms xs = 0 ↔ rmsSq xs = 0 := by
  unfold rms
  rw [Real.sqrt_eq_zero (by exact_mod_cast rmsSq_nonneg xs)]
  exact_mod_cast Iff.rfl

theorem rms_pos_iff (xs : List ℚ) : 0 < rms xs ↔ 0 < rmsSq xs := by
  unfold rms
  rw [Real.sqrt_pos]
  exact_mod_cast Iff.rfl

/-- Evaluation helper: the rms of a one-sample block is the absolute value
of the sample (as a real). -/
theorem rms_singleton (q : ℚ) (h : 0 ≤ q) : rms [q] = (q : ℝ) := by
  have h1 : rmsSq [q] = q * q := by
    simp [rmsSq, sumSq]
  rw [rms, h1]
  have : ((q * q : ℚ) : ℝ) = (q : ℝ) ^ 2 := by push_cast; ring
  rw [this, Real.sqrt_sq (by exact_mod_cast h)]

/-- Evaluation helper: `log10` of a power of ten. -/
theorem logb_ten_zpow (n : ℤ) : Real.logb 10 ((10 : ℝ) ^ n) = n := by
  rw [← Real.log_div_log, Real.log_zpow]
  have h10 : Real.log 10 ≠ 0 := ne_of_gt (Real.log_pos (by norm_num))
  field_simp

/-- C3 counterexample: the block consisting of the single sample `10^-6`
has rms `10^-6 > 0`, so `calculate_db` returns `20 * log10 (10^-6) = -120`,
strictly below the claimed floor of -100. -/
theorem calculate_db_below_floor :
    calculate_db [(1 : ℚ) / 1000000] < -100 := by
  have hq : (0:ℚ) ≤ 1 / 1000000 := by norm_num
  have hrms : rms [(1 : ℚ) / 1000000] = ((1 : ℚ) / 1000000 : ℚ) := rms_singleton _ hq
  have hval : ((((1 : ℚ) / 1000000 : ℚ)) : ℝ) = (10 : ℝ) ^ (-6 : ℤ) := by
    norm_num [zpow_neg]
  rw [calculate_db, if_neg (by simp), if_pos]
  · rw [hrms, hval, logb_ten_zpow]
    norm_num
  · rw [hrms, hval]
    positivity

/-- C3 (amended): `calculate_db` always returns either the -100 floor (for
an empty or zero-rms block) or the pure formula value `20 * log10 rms`
(for a block with positive rms); the formula value is not bounded below
by -100. -/
theorem calculate_db_floor_or_formula (xs : List ℚ) :
    calculate_db xs = -100 ∨
      (0 < rms xs ∧ calculate_db xs = 20 * Real.logb 10 (rms xs)) := by
  unfold calculate_db
  by_cases h0 : xs.length = 0
  · left; rw [if_pos h0]
  · rw [if_neg h0]
    by_cases hp : 0 < rms xs
    · right; rw [if_pos hp]; exact ⟨hp, rfl⟩
    · left; rw [if_neg hp]

/-- C4 counterexample: the one-sample block `[10^-5]` is non-empty and has
nonzero rms, yet `calculate_db` returns exactly -100 (because
`20 * log10 (10^-5) = -100`), so -100 is not returned *exactly* for the
empty/zero-rms blocks. -/
theorem calculate_db_neg100_nonempty_nonzero :
    calculate_db [(1 : ℚ) / 100000] = -100 ∧
      ([(1 : ℚ) / 100000] ≠ ([] : List ℚ) ∧ rms [(1 : ℚ) / 100000] ≠ 0) := by
  have hq : (0:ℚ) ≤ 1 / 100000 := by norm_num
  have hrms : rms [(1 : ℚ) / 100000] = ((1 : ℚ) / 100000 : ℚ) := rms_singleton _ hq
  have hval : ((((1 : ℚ) / 100000 : ℚ)) : ℝ) = (10 : ℝ) ^ (-5 : ℤ) := by
    norm_num [zpow_neg]
  refine ⟨?_, by simp, ?_⟩
  · rw [calculate_db, if_neg (by simp), if_pos]
    · rw [hrms, hval, logb_ten_zpow]
      norm_num
    · rw [hrms, hval]
      positivity
  · rw [hrms, hval]
    positivity

/-- C4 (amended): `calculate_db` is a pure function returning -100 if the
block is empty or its rms is zero, and `20 * log10 rms` otherwise; the
formula branch can itself produce -100, so the dichotomy is an if/else
on the input, not an exact characterisation of the output value. -/
theorem calculate_db_characterization (xs : List ℚ) :
    calculate_db xs =
      if xs = [] ∨ rms xs = 0 then -100 else 20 * Real.logb 10 (rms xs) := by
  unfold calculate_db
  by_cases h0 : xs = []
  · rw [if_pos (by simp [h0]), if_pos (Or.inl h0)]
  · have hlen : ¬ xs.length = 0 := by simpa [List.length_eq_zero] using h0
    rw [if_neg hlen]
    by_cases hz : rms xs = 0
    · rw [if_neg (by rw [hz]; exact lt_irrefl 0), if_pos (Or.inr hz)]
    · have hp : 0 < rms xs := lt_of_le_of_ne (rms_nonneg xs) (Ne.symm hz)
      rw [if_pos hp, if_neg (by push_neg; exact ⟨h0, hz⟩)]

/-- Per-frame level in `trim_silence` (lines 863-869): for a stereo frame,
the max of the left-channel and right-channel dB levels. -/
noncomputable def frameLevel (frame : List Sample) : ℝ :=
  max (calculate_db (frame.map Prod.fst)) (calculate_db (frame.map Prod.snd))

/-- The level of the `i`-th fixed 2048-sample frame of a buffer
(lines 858-871: `frame = audio_data[i*2048 : i*2048+2048]`). -/
noncomputable def levelAt (audio : List Sample) (i : ℕ) : ℝ :=
  frameLevel ((audio.drop (i * 2048)).take 2048)

/-- `frame_levels` of `trim_silence` (lines 857-871): per-frame levels of
the `len(audio) // 2048` complete frames. -/
noncomputable def frameLevels (audio : List Sample) : List ℝ :=
  (List.range (audio.length / 2048)).map (levelAt audio)

/-- The forward scan of `trim_silence` (lines 874-879): index of the first
frame whose level exceeds the threshold, `none` when no frame does (the
Python loop then leaves `start_frame = 0`). -/
noncomputable def firstLoudIdx? (thr : ℝ) : List ℝ → Option ℕ
  | [] => none
  | l :: ls => if thr < l then some 0 else (firstLoudIdx? thr ls).map (· + 1)

/-- The backward scan of `trim_silence` (lines 882-887): index of the last
frame whose level exceeds the threshold, `none` when no frame does (the
Python loop then leaves `end_frame = num_frames`). -/
noncomputable def lastLoudIdx? (thr : ℝ) : List ℝ → Option ℕ
  | [] => none
  | l :: ls =>
    match lastLoudIdx? thr ls with
    | some i => some (i + 1)
    | none => if thr < l then some 0 else none

/-- `start_frame` of `trim_silence` (lines 874-879): 0 when start-trimming
is disabled, and also 0 when the forward scan finds no loud frame. -/
noncomputable def startFrame (trimStart : Bool) (thr : ℝ) (levels : List ℝ) : ℕ :=
  if trimStart then (firstLoudIdx? thr levels).getD 0 else 0

/-- `end_frame` of `trim_silence` (lines 882-887): `num_frames` when
end-trimming is disabled, and also `num_frames` when the backward scan
finds no loud frame; otherwise one past the last loud frame. -/
noncomputable def endFrame (trimEnd : Bool) (thr : ℝ) (levels : List ℝ) (numFrames : ℕ) : ℕ :=
  if trimEnd then
    match lastLoudIdx? thr levels with
    | some j => j + 1
    | none => numFrames
  else numFrames

/-- `trim_silence` (lines 844-906): returns the buffer unchanged when it is
empty or shorter than one 2048-sample frame; otherwise computes per-frame
levels, the scan boundaries, and slices
`audio_data[start_frame*2048 : min(end_frame*2048, len)]`, or returns the
empty buffer when `start_frame >= end_frame` (line 890-891). -/
noncomputable def trim_silence (ts te : Bool) (thr : ℝ) (audio : List Sample) :
    List Sample :=
  if audio.length = 0 then audio
  else if audio.length / 2048 = 0 then audio
  else if endFrame te thr (frameLevels audio) (audio.length / 2048) ≤
      startFrame ts thr (frameLevels audio) then []
  else
    (audio.drop (startFrame ts thr (frameLevels audio) * 2048)).take
      (min (endFrame te thr (frameLevels audio) (audio.length / 2048) * 2048) audio.length
        - startFrame ts thr (frameLevels audio) * 2048)

theorem firstLoudIdx?_eq_none_iff (thr : ℝ) (l : List ℝ) :
    firstLoudIdx? thr l = none ↔ ∀ x ∈ l, ¬ thr < x := by
  induction l with
  | nil => simp [firstLoudIdx?]
  | cons x xs ih =>
    by_cases h : thr < x
    · simp [firstLoudIdx?, h]
    · simp only [firstLoudIdx?, if_neg h, Option.map_eq_none', ih, List.mem_cons]
      constructor
      · intro hall y hy
        rcases hy with rfl | hy
        · exact h
        · exact hall y hy
      · intro hall y hy
        exact hall y (Or.inr hy)

theorem firstLoudIdx?_some_loud (thr : ℝ) (l : List ℝ) (i : ℕ)
    (h : firstLoudIdx? thr l = some i) : ∃ x, l[i]? = some x ∧ thr < x := by
  induction l generalizing i with
  | nil => simp [firstLoudIdx?] at h
  | cons y ys ih =>
    by_cases hy : thr < y
    · simp only [firstLoudIdx?, if_pos hy, Option.some.injEq] at h
      subst h
      exact ⟨y, by simp, hy⟩
    · simp only [firstLoudIdx?, if_neg hy, Option.map_eq_some'] at h
      rcases h with ⟨j, hj, rfl⟩
      rcases ih j hj with ⟨x, hx, hloud⟩
      exact ⟨x, by simpa using hx, hloud⟩

theorem firstLoudIdx?_of_head_loud (thr : ℝ) (l : List ℝ) (x : ℝ)
    (hx : l[0]? = some x) (hloud : thr < x) : firstLoudIdx? thr l = some 0 := by
  cases l with
  | nil => simp at hx
  | cons y ys =>
    simp only [List.getElem?_cons_zero, Option.some.injEq] at hx
    subst hx
    simp [firstLoudIdx?, hloud]

theorem lastLoudIdx?_eq_none_iff (thr : ℝ) (l : List ℝ) :
    lastLoudIdx? thr l = none ↔ ∀ x ∈ l, ¬ thr < x := by
  induction l with
  | nil => simp [lastLoudIdx?]
  | cons x xs ih =>
    cases h : lastLoudIdx? thr xs with
    | some i =>
      simp only [lastLoudIdx?, h]
      constructor
      · intro hc; exact absurd hc (by simp)
      · intro hall
        rw [ih.mpr (fun y hy => hall y (List.mem_cons_of_mem x hy))] at h
        exact absurd h (by simp)
    | none =>
      by_cases hx : thr < x
      · simp [lastLoudIdx?, h, hx]
      · simp only [lastLoudIdx?, h, if_neg hx]
        simp only [List.mem_cons]
        constructor
        · intro _ y hy
          rcases hy with rfl | hy
          · exact hx
          · exact (ih.mp h) y hy
        · intro _; trivial

theorem lastLoudIdx?_some_loud (thr : ℝ) (l : List ℝ) (j : ℕ)
    (h : lastLoudIdx? thr l = some j) : ∃ x, l[j]? = some x ∧ thr < x := by
  induction l generalizing j with
  | nil => simp [lastLoudIdx?] at h
  | cons y ys ih =>
    cases hys : lastLoudIdx? thr ys with
    | some i =>
      simp only [lastLoudIdx?, hys, Option.some.injEq] at h
      subst h
      rcases ih i hys with ⟨x, hx, hloud⟩
      exact ⟨x, by simpa using hx, hloud⟩
    | none =>
      by_cases hy : thr < y
      · simp only [lastLoudIdx?, hys, if_pos hy, Option.some.injEq] at h
        subst h
        exact ⟨y, by simp, hy⟩
      · simp [lastLoudIdx?, hys, if_neg hy] at h

theorem lastLoudIdx?_some_lt (thr : ℝ) (l : List ℝ) (j : ℕ)
    (h : lastLoudIdx? thr l = some j) : j < l.length := by
  rcases lastLoudIdx?_some_loud thr l j h with ⟨x, hx, _⟩
  exact List.getElem?_eq_some_iff.mp hx |>.fst

theorem lastLoudIdx?_of_last_loud (thr : ℝ) (l : List ℝ) (j : ℕ) (x : ℝ)
    (hlen : l.length = j + 1) (hx : l[j]? = some x) (hloud : thr < x) :
    lastLoudIdx? thr l = some j := by
  induction l generalizing j with
  | nil => simp at hlen
  | cons y ys ih =>
    cases j with
    | zero =>
      have hys : ys = [] := by
        have : ys.length = 0 := by simpa using hlen
        exact List.length_eq_zero.mp this
      subst hys
      simp only [List.getElem?_cons_zero, Option.some.injEq] at hx
      subst hx
      simp [lastLoudIdx?, hloud]
    | succ k =>
      have hlen' : ys.length = k + 1 := by simpa using hlen
      have hx' : ys[k]? = some x := by simpa using hx
      rw [lastLoudIdx?, ih k hlen' hx']

theorem frameLevels_length (audio : List Sample) :
    (frameLevels audio).length = audio.length / 2048 := by
  simp [frameLevels]

theorem frameLevels_getElem? (audio : List Sample) (i : ℕ)
    (h : i < audio.length / 2048) :
    (frameLevels audio)[i]? = some (levelAt audio i) := by
  simp [frameLevels, List.getElem?_map, List.getElem?_range h]

theorem endFrame_le (te : Bool) (thr : ℝ) (levels : List ℝ) (n : ℕ)
    (hn : levels.length = n) : endFrame te thr levels n ≤ n := by
  cases te with
  | false => simp [endFrame]
  | true =>
    cases hla : lastLoudIdx? thr levels with
    | none => simp [endFrame, hla]
    | some j =>
      have := lastLoudIdx?_some_lt thr levels j hla
      simp only [endFrame, if_true, hla]
      omega

theorem slice_frame_align (audio : List Sample) (s e i : ℕ) (hi : s + i < e) :
    (((audio.drop (s * 2048)).take ((e - s) * 2048)).drop (i * 2048)).take 2048 =
      (audio.drop ((s + i) * 2048)).take 2048 := by
  rw [List.drop_take, List.take_take, List.drop_drop]
  have h1 : (e - s) * 2048 - i * 2048 = (e - s - i) * 2048 := by
    rw [← Nat.sub_mul]
  have h2 : 2048 ≤ (e - s - i) * 2048 := by
    have hi1 : 1 ≤ e - s - i := by omega
    calc (2048 : ℕ) = 1 * 2048 := by norm_num
    _ ≤ (e - s - i) * 2048 := Nat.mul_le_mul_right _ hi1
  rw [h1, min_eq_left h2]
  have h3 : s * 2048 + i * 2048 = (s + i) * 2048 := by ring
  rw [h3]

theorem slice_length (audio : List Sample) (s e : ℕ)
    (hse : s < e) (hen : e ≤ audio.length / 2048) :
    ((audio.drop (s * 2048)).take ((e - s) * 2048)).length = (e - s) * 2048 := by
  rw [List.length_take, List.length_drop]
  have h1 : e * 2048 ≤ audio.length := by omega
  omega

theorem frameLevels_slice (audio : List Sample) (s e : ℕ)
    (hse : s < e) (hen : e ≤ audio.length / 2048) :
    frameLevels ((audio.drop (s * 2048)).take ((e - s) * 2048)) =
      (List.range (e - s)).map (fun i => levelAt audio (s + i)) := by
  rw [frameLevels, slice_length audio s e hse hen,
    Nat.mul_div_cancel _ (by norm_num : (0:ℕ) < 2048)]
  apply List.map_congr_left
  intro i hi
  rw [List.mem_range] at hi
  unfold levelAt
  rw [slice_frame_align audio s e i (by omega)]

theorem startFrame_slice (ts : Bool) (thr : ℝ) (audio : List Sample) (s e : ℕ)
    (hs : s = startFrame ts thr (frameLevels audio))
    (hse : s < e) (hen : e ≤ audio.length / 2048) :
    startFrame ts thr (frameLevels ((audio.drop (s * 2048)).take ((e - s) * 2048))) = 0 := by
  have hlev := frameLevels_slice audio s e hse hen
  cases ts with
  | false => simp [startFrame]
  | true =>
    rw [startFrame, if_pos rfl]
    cases hfi : firstLoudIdx? thr (frameLevels audio) with
    | none =>
      have hnone : firstLoudIdx? thr
          (frameLevels ((audio.drop (s * 2048)).take ((e - s) * 2048))) = none := by
        rw [firstLoudIdx?_eq_none_iff]
        intro x hx
        rw [hlev] at hx
        rcases List.mem_map.mp hx with ⟨i, hi, rfl⟩
        rw [List.mem_range] at hi
        apply (firstLoudIdx?_eq_none_iff thr (frameLevels audio)).mp hfi
        rw [frameLevels]
        exact List.mem_map_of_mem _ (List.mem_range.mpr (by omega))
      rw [hnone]
      rfl
    | some i0 =>
      have hsi0 : s = i0 := by
        rw [hs, startFrame, if_pos rfl, hfi]
        rfl
      rcases firstLoudIdx?_some_loud thr (frameLevels audio) i0 hfi with ⟨x, hx, hloud⟩
      have hi0 : i0 < audio.length / 2048 := by
        have := List.getElem?_eq_some_iff.mp hx |>.fst
        rwa [frameLevels_length] at this
      have hx' : x = levelAt audio i0 := by
        rw [frameLevels_getElem? audio i0 hi0] at hx
        exact (Option.some.inj hx).symm
      have h0 : (frameLevels ((audio.drop (s * 2048)).take ((e - s) * 2048)))[0]? =
          some (levelAt audio (s + 0)) := by
        rw [hlev, List.getElem?_map, List.getElem?_range (by omega : 0 < e - s)]
        rfl
      have : firstLoudIdx? thr
          (frameLevels ((audio.drop (s * 2048)).take ((e - s) * 2048))) = some 0 := by
        apply firstLoudIdx?_of_head_loud thr _ _ h0
        rw [Nat.add_zero, hsi0, ← hx']
        exact hloud
      rw [this]
      rfl

theorem endFrame_slice (te : Bool) (thr : ℝ) (audio : List Sample) (s e : ℕ)
    (he : e = endFrame te thr (frameLevels audio) (audio.length / 2048))
    (hse : s < e) (hen : e ≤ audio.length / 2048) :
    endFrame te thr (frameLevels ((audio.drop (s * 2048)).take ((e - s) * 2048)))
      (e - s) = e - s := by
  have hlev := frameLevels_slice audio s e hse hen
  cases te with
  | false => simp [endFrame]
  | true =>
    rw [endFrame, if_pos rfl]
    cases hla : lastLoudIdx? thr (frameLevels audio) with
    | none =>
      have hnone : lastLoudIdx? thr
          (frameLevels ((audio.drop (s * 2048)).take ((e - s) * 2048))) = none := by
        rw [lastLoudIdx?_eq_none_iff]
        intro x hx
        rw [hlev] at hx
        rcases List.mem_map.mp hx with ⟨i, hi, rfl⟩
        rw [List.mem_range] at hi
        apply (lastLoudIdx?_eq_none_iff thr (frameLevels audio)).mp hla
        rw [frameLevels]
        exact List.mem_map_of_mem _ (List.mem_range.mpr (by omega))
      rw [hnone]
    | some j =>
      have hej : e = j + 1 := by
        rw [he, endFrame, if_pos rfl, hla]
      rcases lastLoudIdx?_some_loud thr (frameLevels audio) j hla with ⟨x, hx, hloud⟩
      have hj : j < audio.length / 2048 := by
        have := List.getElem?_eq_some_iff.mp hx |>.fst
        rwa [frameLevels_length] at this
      have hx' : x = levelAt audio j := by
        rw [frameLevels_getElem? audio j hj] at hx
        exact (Option.some.inj hx).symm
      have hlast : (frameLevels ((audio.drop (s * 2048)).take ((e - s) * 2048)))[e - s - 1]? =
          some (levelAt audio (s + (e - s - 1))) := by
        rw [hlev, List.getElem?_map, List.getElem?_range (by omega : e - s - 1 < e - s)]
        rfl
      have hidx : s + (e - s - 1) = j := by omega
      have hlen' : (frameLevels ((audio.drop (s * 2048)).take ((e - s) * 2048))).length
          = (e - s - 1) + 1 := by
        rw [hlev, List.length_map, List.length_range]
        omega
      have : lastLoudIdx? thr
          (frameLevels ((audio.drop (s * 2048)).take ((e - s) * 2048))) = some (e - s - 1) := by
        apply lastLoudIdx?_of_last_loud thr _ _ x hlen'
        · rw [hlast, hidx, hx']
        · exact hloud
      rw [this]
      show (e - s - 1) + 1 = e - s
      omega

theorem trim_silence_fixes_slice (ts te : Bool) (thr : ℝ) (audio : List Sample)
    (s e : ℕ)
    (hs : s = startFrame ts thr (frameLevels audio))
    (he : e = endFrame te thr (frameLevels audio) (audio.length / 2048))
    (hse : s < e) (hen : e ≤ audio.length / 2048) :
    trim_silence ts te thr ((audio.drop (s * 2048)).take ((e - s) * 2048)) =
      (audio.drop (s * 2048)).take ((e - s) * 2048) := by
  have hTlen := slice_length audio s e hse hen
  have hTn : ((audio.drop (s * 2048)).take ((e - s) * 2048)).length / 2048 = e - s := by
    rw [hTlen, Nat.mul_div_cancel _ (by norm_num : (0:ℕ) < 2048)]
  have hs0 := startFrame_slice ts thr audio s e hs hse hen
  have he0 := endFrame_slice te thr audio s e he hse hen
  rw [trim_silence, if_neg (by omega), if_neg (by omega), hTn, hs0, he0,
    if_neg (by omega)]
  rw [Nat.zero_mul, Nat.sub_zero, List.drop_zero, hTlen, min_self, List.take_take,
    min_self]

/-- C5: trimming is idempotent — applying `trim_silence` with the same
threshold and the same enable flags to its own output returns that output
unchanged. -/
theorem trim_silence_idempotent (ts te : Bool) (thr : ℝ) (audio : List Sample) :
    trim_silence ts te thr (trim_silence ts te thr audio) =
      trim_silence ts te thr audio := by
  by_cases h0 : audio.length = 0
  · have h : trim_silence ts te thr audio = audio := by rw [trim_silence, if_pos h0]
    rw [h]; exact h
  · by_cases h1 : audio.length / 2048 = 0
    · have h : trim_silence ts te thr audio = audio := by
        rw [trim_silence, if_neg h0, if_pos h1]
      rw [h]; exact h
    · by_cases hes : endFrame te thr (frameLevels audio) (audio.length / 2048) ≤
          startFrame ts thr (frameLevels audio)
      · have h : trim_silence ts te thr audio = [] := by
          rw [trim_silence, if_neg h0, if_neg h1, if_pos hes]
        rw [h]
        simp [trim_silence]
      · have hse : startFrame ts thr (frameLevels audio) <
            endFrame te thr (frameLevels audio) (audio.length / 2048) := by omega
        have hen : endFrame te thr (frameLevels audio) (audio.length / 2048) ≤
            audio.length / 2048 :=
          endFrame_le te thr (frameLevels audio) (audio.length / 2048)
            (frameLevels_length audio)
        have hmin : min (endFrame te thr (frameLevels audio) (audio.length / 2048) * 2048)
            audio.length = endFrame te thr (frameLevels audio) (audio.length / 2048) * 2048 := by
          apply min_eq_left
          omega
        have h : trim_silence ts te thr audio =
            (audio.drop (startFrame ts thr (frameLevels audio) * 2048)).take
              ((endFrame te thr (frameLevels audio) (audio.length / 2048) -
                startFrame ts thr (frameLevels audio)) * 2048) := by
          rw [trim_silence, if_neg h0, if_neg h1, if_neg hes, hmin]
          congr 1
          omega
        rw [h]
        exact trim_silence_fixes_slice ts te thr audio _ _ rfl rfl hse hen

theorem calculate_db_replicate_zero (n : ℕ) :
    calculate_db (List.replicate n (0:ℚ)) = -100 := by
  have hz : rmsSq (List.replicate n (0:ℚ)) = 0 := by
    simp [rmsSq, sumSq, List.map_replicate]
  have hrms : rms (List.replicate n (0:ℚ)) = 0 := by
    rw [rms, hz]
    simp
  by_cases hn : (List.replicate n (0:ℚ)).length = 0
  · rw [calculate_db, if_pos hn]
  · rw [calculate_db, if_neg hn, if_neg (by rw [hrms]; exact lt_irrefl 0)]

/-- The 2048-sample (one trim frame) all-zero stereo buffer: every sample is
below any trim threshold, so by the spec trimming it with both flags on
should yield an empty result. -/
def silentBuf : List Sample := List.replicate 2048 ((0:ℚ), (0:ℚ))

/-- C1 (code bug): trimming the entirely silent one-frame buffer with both
start- and end-trimming enabled at the default -50 dB threshold returns the
buffer unchanged, not the empty result the spec (Scenario A) requires: when
no frame is loud, the forward scan of `trim_silence` leaves `start_frame = 0`
and the backward scan leaves `end_frame = num_frames`, so the all-silence
branch (line 890-891, `return np.array([])`) can never fire. -/
theorem trim_silence_all_silent_returns_buffer :
    trim_silence true true (-50) silentBuf = silentBuf ∧ silentBuf ≠ [] := by
  have hlen : silentBuf.length = 2048 := by
    rw [silentBuf, List.length_replicate]
  have hframe : levelAt silentBuf 0 = -100 := by
    rw [levelAt, Nat.zero_mul, List.drop_zero]
    have htake : silentBuf.take 2048 = silentBuf := by
      rw [← hlen, List.take_length]
    have hmap1 : silentBuf.map Prod.fst = List.replicate 2048 (0:ℚ) := by
      rw [silentBuf, List.map_replicate]
    have hmap2 : silentBuf.map Prod.snd = List.replicate 2048 (0:ℚ) := by
      rw [silentBuf, List.map_replicate]
    rw [htake, frameLevel, hmap1, hmap2, calculate_db_replicate_zero, max_self]
  have hlev : frameLevels silentBuf = [(-100 : ℝ)] := by
    rw [frameLevels, hlen, show (2048:ℕ)/2048 = 1 from by norm_num,
      show List.range 1 = [0] from rfl, List.map_singleton, hframe]
  have hquiet : ¬ ((-50:ℝ) < -100) := by norm_num
  have hfirst : firstLoudIdx? (-50) [(-100:ℝ)] = none := by
    simp [firstLoudIdx?, hquiet]
  have hlast : lastLoudIdx? (-50) [(-100:ℝ)] = none := by
    simp [lastLoudIdx?, hquiet]
  constructor
  · have hsf : startFrame true (-50) [(-100:ℝ)] = 0 := by
      rw [startFrame, if_pos rfl, hfirst]
      rfl
    have hef : endFrame true (-50) [(-100:ℝ)] 1 = 1 := by
      rw [endFrame, if_pos rfl, hlast]
    have hc1 : ¬ ((2048:ℕ) = 0) := by norm_num
    have hc2 : ¬ ((1:ℕ) = 0) := by norm_num
    have hc3 : ¬ ((1:ℕ) ≤ 0) := by norm_num
    rw [trim_silence, hlen, show (2048:ℕ)/2048 = 1 from by norm_num, hlev, hsf, hef,
      if_neg hc1, if_neg hc2, if_neg hc3]
    rw [Nat.zero_mul, List.drop_zero, Nat.sub_zero, Nat.one_mul, min_self, ← hlen,
      List.take_length]
  · rw [silentBuf]
    intro h
    have hl := congrArg List.length h
    rw [List.length_replicate] at hl
    simp at hl

/-- C9: a non-empty buffer shorter than one 2048-sample trim frame is
returned by `trim_silence` completely unchanged, whatever its contents, the
threshold and the enabled flags (`num_frames = 0` early return,
lines 849-854). -/
theorem trim_silence_short_buffer_unchanged (ts te : Bool) (thr : ℝ)
    (audio : List Sample) (h1 : audio ≠ []) (h2 : audio.length < 2048) :
    trim_silence ts te thr audio = audio := by
  have h0 : ¬ audio.length = 0 := by simpa [List.length_eq_zero] using h1
  have hn : audio.length / 2048 = 0 := Nat.div_eq_of_lt h2
  rw [trim_silence, if_neg h0, if_pos hn]

/-- C9 witness: the one-sample full-scale buffer, with both trim flags on and
the default threshold, is returned unchanged. -/
theorem trim_silence_short_buffer_unchanged_witness :
    ([((1:ℚ), (1:ℚ))] : List Sample) ≠ [] ∧
      ([((1:ℚ), (1:ℚ))] : List Sample).length < 2048 ∧
      trim_silence true true (-50) [((1:ℚ), (1:ℚ))] = [((1:ℚ), (1:ℚ))] :=
  ⟨by decide, by decide,
    trim_silence_short_buffer_unchanged true true (-50) _ (by decide) (by decide)⟩

/-- The `maxsize` of the recording queue: `queue.Queue()` at line 30 passes
no maxsize, and Python's default `maxsize=0` means the queue is unbounded. -/
def audioQueueMaxsize : ℕ := 0

/-- Python's `queue.Queue.full()`: true exactly when `0 < maxsize <= qsize()`.
With `maxsize = 0` this is always false. -/
def queueFull (q : List (List Sample)) : Bool :=
  decide (0 < audioQueueMaxsize) && decide (audioQueueMaxsize ≤ q.length)

/-- `queue.Queue.put(block)` on the unbounded recording/monitor queues
(lines 30-31): appends at the tail, never blocks, never raises. -/
def audioQueuePut (q : List (List Sample)) (b : List Sample) : List (List Sample) :=
  q ++ [b]

/-- The capture-side state touched by `input_callback`'s routing
(lines 558-573): the recording flag (the session being Active), the
recording queue and, when armed, the monitor queue.  Level metering and the
auto-record start (lines 565, 576-585) are modelled separately
(`calculate_db`, `autoRun`). -/
structure CaptureState where
  is_recording : Bool
  audio_queue : List (List Sample)
  monitor_queue : List (List Sample)
  is_armed : Bool

/-- The queue routing of `input_callback` (lines 564-573): the block copy is
pushed to the recording queue when recording, and to the monitor queue when
armed. -/
def input_callback (st : CaptureState) (block : List Sample) : CaptureState :=
  let st1 := if st.is_recording
    then { st with audio_queue := audioQueuePut st.audio_queue block }
    else st
  if st1.is_armed
    then { st1 with monitor_queue := audioQueuePut st1.monitor_queue block }
    else st1

/-- C2 counterexample: the recording queue has no reachable capacity — it is
never `full()`, even holding 100000 blocks — and a push at that size still
appends the block and leaves the recording flag untouched, so no overflow is
ever reported and no session ever transitions to a Failed state; the code
has no `QueueOverflowError` at all. -/
theorem recording_queue_never_full :
    queueFull (List.replicate 100000 [((1:ℚ), (1:ℚ))]) = false ∧
      audioQueuePut (List.replicate 100000 [((1:ℚ), (1:ℚ))]) [((1:ℚ), (1:ℚ))] =
        List.replicate 100000 [((1:ℚ), (1:ℚ))] ++ [[((1:ℚ), (1:ℚ))]] ∧
      (input_callback
          { is_recording := true,
            audio_queue := List.replicate 100000 [((1:ℚ), (1:ℚ))],
            monitor_queue := [], is_armed := false }
          [((1:ℚ), (1:ℚ))]).is_recording = true :=
  ⟨rfl, rfl, rfl⟩

/-- C2 (amended): the recording queue is unbounded, so a pushed block is
never dropped: while the session is active every callback appends its block
to the recording queue (preserving all earlier blocks) and leaves the
session active; there is no capacity to reach, hence no overflow error and
no Failed transition in the code. -/
theorem recording_queue_push_appends (st : CaptureState) (b : List Sample)
    (h : st.is_recording = true) :
    (input_callback st b).audio_queue = st.audio_queue ++ [b] ∧
      (input_callback st b).is_recording = true := by
  unfold input_callback audioQueuePut
  rw [if_pos h]
  by_cases ha : st.is_armed = true
  · rw [if_pos ha]
    exact ⟨rfl, h⟩
  · rw [if_neg ha]
    exact ⟨rfl, h⟩

/-- C2 witness: a concrete push while recording. -/
theorem recording_queue_push_appends_witness :
    ({ is_recording := true, audio_queue := [[((2:ℚ), (0:ℚ))]],
        monitor_queue := [], is_armed := false } : CaptureState).is_recording = true ∧
      ((input_callback
          { is_recording := true, audio_queue := [[((2:ℚ), (0:ℚ))]],
            monitor_queue := [], is_armed := false }
          [((3:ℚ), (3:ℚ))]).audio_queue =
        [[((2:ℚ), (0:ℚ))]] ++ [[((3:ℚ), (3:ℚ))]] ∧
      (input_callback
          { is_recording := true, audio_queue := [[((2:ℚ), (0:ℚ))]],
            monitor_queue := [], is_armed := false }
          [((3:ℚ), (3:ℚ))]).is_recording = true) :=
  ⟨rfl, recording_queue_push_appends _ _ rfl⟩

/-- `output_callback` (lines 592-620) as a function of the monitor queue,
the monitor gain and the requested frame count: on an empty queue it writes
`frames` zero samples; otherwise it pops the head block, scales both
channels by the gain, zero-pads when shorter than `frames` and truncates
when longer, and writes exactly `frames` samples.  The returned pair is
(what is written to `outdata`, the remaining queue). -/
def output_callback (q : List (List Sample)) (vol : ℚ) (frames : ℕ) :
    List Sample × List (List Sample) :=
  match q with
  | [] => (List.replicate frames ((0:ℚ), (0:ℚ)), [])
  | d :: rest =>
    let scaled := d.map (fun p => (vol * p.1, vol * p.2))
    let resized :=
      if scaled.length < frames then
        scaled ++ List.replicate (frames - scaled.length) ((0:ℚ), (0:ℚ))
      else if frames < scaled.length then scaled.take frames
      else scaled
    (resized, rest)

/-- C6: every playback callback writes a block of exactly the requested
frame count: all zeros when the monitor queue is empty, and otherwise the
gain-scaled head block zero-padded (when shorter) or truncated (when
longer) to the requested count. -/
theorem output_callback_spec (q : List (List Sample)) (vol : ℚ) (frames : ℕ) :
    (output_callback q vol frames).1.length = frames ∧
      (output_callback q vol frames).1 =
        (match q with
         | [] => List.replicate frames ((0:ℚ), (0:ℚ))
         | d :: _ =>
           ((d.map (fun p => (vol * p.1, vol * p.2))) ++
             List.replicate (frames - d.length) ((0:ℚ), (0:ℚ))).take frames) := by
  cases q with
  | nil =>
    refine ⟨?_, rfl⟩
    simp [output_callback]
  | cons d rest =>
    have hlen : (d.map (fun p : Sample => (vol * p.1, vol * p.2))).length = d.length :=
      List.length_map d _
    rcases lt_trichotomy (d.length) frames with hlt | heq | hgt
    · constructor
      · simp only [output_callback, hlen, if_pos hlt]
        rw [List.length_append, List.length_map, List.length_replicate]
        omega
      · simp only [output_callback, hlen, if_pos hlt]
        rw [List.take_of_length_le]
        rw [List.length_append, List.length_map, List.length_replicate]
        omega
    · constructor
      · simp only [output_callback, hlen, heq, lt_irrefl, if_false, if_neg (lt_irrefl frames)]
      · simp only [output_callback, hlen, heq, lt_irrefl, if_false, if_neg (lt_irrefl frames)]
        rw [Nat.sub_self, List.replicate_zero, List.append_nil,
          List.take_of_length_le (le_of_eq (by rw [List.length_map]; exact heq))]
    · constructor
      · simp only [output_callback, hlen, if_neg (by omega : ¬ d.length < frames),
          if_pos hgt]
        rw [List.length_take, List.length_map]
        omega
      · simp only [output_callback, hlen, if_neg (by omega : ¬ d.length < frames),
          if_pos hgt]
        rw [show frames - d.length = 0 from by omega, List.replicate_zero,
          List.append_nil]

/-- Python's `f"{n:04d}"`: the decimal rendering of `n` left-padded with
zeros to at least four characters (line 744, `{counter:04d}`). -/
def pad4 (n : ℕ) : String :=
  String.mk (List.replicate (4 - (toString n).length) '0') ++ toString n

/-- The recording file name (lines 742-745):
`os.path.join(output_folder, f"{prefix}_{counter:04d}_{timestamp}.wav")`,
with `os.path.join` modelled as a single separator. -/
def recordingFilename (folder pfx : String) (counter : ℕ) (timestamp : String) :
    String :=
  folder ++ "/" ++ pfx ++ "_" ++ pad4 counter ++ "_" ++ timestamp ++ ".wav"

/-- The recording-session state touched by `start_recording` /
`stop_recording` / `save_recording` (lines 732-842): the active flag, the
target filename, the accumulated frames, the file counter (`counter_var`),
the name settings, the start time, and the trim settings read by
`save_recording`.  GUI label updates are not state of the recording. -/
structure RecState where
  is_recording : Bool
  current_filename : Option String
  recorded_frames : List (List Sample)
  fileCounter : ℕ
  prefixStr : String
  outputFolder : String
  recording_start_time : Option ℚ
  trimStartFlag : Bool
  trimEndFlag : Bool
  trimThresholdDb : ℚ

/-- `start_recording` (lines 732-759): a no-op while already recording
(lines 734-735); otherwise builds the filename from the pre-increment
counter, clears the frame accumulator, sets the active flag and the start
time, and increments the counter (line 759).  `now` and `timestamp` stand
for the two reads of `datetime.datetime.now()`. -/
def start_recording (s : RecState) (now : ℚ) (timestamp : String) : RecState :=
  if s.is_recording then s
  else
    { s with
      current_filename :=
        some (recordingFilename s.outputFolder s.prefixStr s.fileCounter timestamp)
      recorded_frames := []
      is_recording := true
      recording_start_time := some now
      fileCounter := s.fileCounter + 1 }

/-- `stop_recording` (lines 787-798): a no-op when not recording; otherwise
clears the active flag (saving itself runs in `save_recording`). -/
def stop_recording (s : RecState) : RecState :=
  if s.is_recording then { s with is_recording := false } else s

/-- The outcome of `save_recording` (lines 800-842). -/
inductive SaveOutcome
  | emptyDiscarded
  | saved (data : List Sample)
  | failed

/-- `save_recording` (lines 800-842): returns without writing when no
frames were captured (lines 802-804); concatenates the frames, trims when
either trim flag is set (lines 807-811), discards the take when trimming
left nothing (lines 814-818); otherwise writes the file — `ioOk` stands for
whether `sf.write` succeeds (the except branch at lines 839-842).  No
branch touches the file counter. -/
noncomputable def save_recording (s : RecState) (ioOk : Bool) :
    SaveOutcome × RecState :=
  if s.recorded_frames = [] then (SaveOutcome.emptyDiscarded, s)
  else
    let audio := s.recorded_frames.join
    let trimmed :=
      if s.trimStartFlag || s.trimEndFlag then
        trim_silence s.trimStartFlag s.trimEndFlag (s.trimThresholdDb : ℝ) audio
      else audio
    if trimmed.length = 0 then (SaveOutcome.emptyDiscarded, s)
    else if ioOk then (SaveOutcome.saved trimmed, s)
    else (SaveOutcome.failed, s)

/-- C7: a start-recording request while a session is already active is a
complete no-op — every piece of recording state (filename, accumulated
frames, counter, start time, flags) is left unchanged (lines 734-735). -/
theorem start_recording_noop_when_active (s : RecState) (now : ℚ)
    (timestamp : String) (h : s.is_recording = true) :
    start_recording s now timestamp = s := by
  rw [start_recording, if_pos h]

/-- A concrete state with an active session, for the C7 witness. -/
def activeState : RecState :=
  { is_recording := true
    current_filename := some "rec/Recording_0006_20260101_120000.wav"
    recorded_frames := [[((1:ℚ), (1:ℚ))]]
    fileCounter := 7
    prefixStr := "Recording"
    outputFolder := "rec"
    recording_start_time := some 5
    trimStartFlag := true
    trimEndFlag := true
    trimThresholdDb := -50 }

/-- C7 witness: starting while `activeState` is recording changes nothing. -/
theorem start_recording_noop_when_active_witness :
    activeState.is_recording = true ∧
      start_recording activeState 9 "20260101_120500" = activeState :=
  ⟨rfl, start_recording_noop_when_active activeState 9 "20260101_120500" rfl⟩

/-- A concrete idle state, for the C10 witness. -/
def idleState : RecState :=
  { is_recording := false
    current_filename := none
    recorded_frames := []
    fileCounter := 7
    prefixStr := "Recording"
    outputFolder := "rec"
    recording_start_time := none
    trimStartFlag := true
    trimEndFlag := true
    trimThresholdDb := -50 }

/-- C10: a successful start (no session active) increments the file counter
by exactly one and embeds the pre-increment counter, zero-padded to four
digits, in the new filename; and no later step of the recording lifecycle
(stop, save in any of its outcomes) ever changes the counter back. -/
theorem start_recording_increments_counter (s : RecState) (now : ℚ)
    (timestamp : String) (h : s.is_recording = false) :
    (start_recording s now timestamp).fileCounter = s.fileCounter + 1 ∧
      (start_recording s now timestamp).current_filename =
        some (s.outputFolder ++ "/" ++ s.prefixStr ++ "_" ++ pad4 s.fileCounter ++
          "_" ++ timestamp ++ ".wav") ∧
      (∀ s2 : RecState, (stop_recording s2).fileCounter = s2.fileCounter) ∧
      (∀ (s2 : RecState) (ioOk : Bool),
        ((save_recording s2 ioOk).2).fileCounter = s2.fileCounter) := by
  have hnot : ¬ s.is_recording = true := by rw [h]; exact Bool.false_ne_true
  refine ⟨?_, ?_, ?_, ?_⟩
  · rw [start_recording, if_neg hnot]
  · rw [start_recording, if_neg hnot, recordingFilename]
  · intro s2
    rw [stop_recording]
    by_cases h2 : s2.is_recording = true
    · rw [if_pos h2]
    · rw [if_neg h2]
  · intro s2 ioOk
    rw [save_recording]
    by_cases h2 : s2.recorded_frames = []
    · rw [if_pos h2]
    · rw [if_neg h2]
      by_cases h3 : (if s2.trimStartFlag || s2.trimEndFlag then
          trim_silence s2.trimStartFlag s2.trimEndFlag (s2.trimThresholdDb : ℝ)
            s2.recorded_frames.join
        else s2.recorded_frames.join).length = 0
      · rw [if_pos h3]
      · rw [if_neg h3]
        by_cases h4 : ioOk = true
        · rw [if_pos h4]
        · rw [if_neg h4]

/-- C10 witness: starting from the idle state with counter 7 yields counter
8 and the filename embedding "0007". -/
theorem start_recording_increments_counter_witness :
    idleState.is_recording = false ∧
      ((start_recording idleState 9 "20260101_120000").fileCounter =
          idleState.fileCounter + 1 ∧
        (start_recording idleState 9 "20260101_120000").current_filename =
          some (idleState.outputFolder ++ "/" ++ idleState.prefixStr ++ "_" ++
            pad4 idleState.fileCounter ++ "_" ++ "20260101_120000" ++ ".wav") ∧
        (∀ s2 : RecState, (stop_recording s2).fileCounter = s2.fileCounter) ∧
        (∀ (s2 : RecState) (ioOk : Bool),
          ((save_recording s2 ioOk).2).fileCounter = s2.fileCounter)) :=
  ⟨rfl, start_recording_increments_counter idleState 9 "20260101_120000" rfl⟩

/-- Sanity: the pre-increment counter 7 renders as "0007" in the filename. -/
theorem pad4_seven : pad4 7 = "0007" := by decide

/-- One per-block observation consumed by `recording_thread` (lines 761-785):
the fresh left/right level reading (`self.current_level_l/r`, written by the
callback for this block) and the recording duration at the moment the block
is handled (line 777). -/
structure LevelBlock where
  lvlL : ℝ
  lvlR : ℝ
  elapsed : ℝ

/-- `silence_frame_threshold` (line 764):
`int(self.silence_duration * self.sample_rate / 2048)` with
`sample_rate = 44100` (line 36). -/
def silenceFrameThreshold (dur : ℚ) : ℕ :=
  (dur * 44100 / 2048).floor.toNat

/-- The auto-stop state of `recording_thread`: the `silence_frames` counter
(line 763) and whether a stop has been requested (lines 779-780, after
which the loop breaks and the state freezes). -/
structure AutoState where
  silenceFrames : ℕ
  stopped : Bool

/-- One iteration of the auto-mode body of `recording_thread`
(lines 771-782): after a stop the loop has broken, so the state is frozen;
a block whose max level is below the threshold increments the counter, and
a stop is requested when the counter has reached `silence_frame_threshold`
AND the elapsed duration has reached `min_recording_duration`; a block at
or above the threshold resets the counter to zero. -/
noncomputable def autoStep (thr minDur : ℝ) (n : ℕ) (st : AutoState)
    (b : LevelBlock) : AutoState :=
  if st.stopped then st
  else if max b.lvlL b.lvlR < thr then
    if n ≤ st.silenceFrames + 1 then
      if minDur ≤ b.elapsed then ⟨st.silenceFrames + 1, true⟩
      else ⟨st.silenceFrames + 1, false⟩
    else ⟨st.silenceFrames + 1, false⟩
  else ⟨0, false⟩

/-- The auto-mode run of `recording_thread` over a sequence of handled
blocks, starting with `silence_frames = 0` (line 763) and no stop. -/
noncomputable def autoRun (thr minDur : ℝ) (n : ℕ) (bs : List LevelBlock) :
    AutoState :=
  bs.foldl (autoStep thr minDur n) ⟨0, false⟩

/-- The consecutive-silence count over a block sequence: incremented by
each silent block, reset to zero by each loud one — the value of
`silence_frames` while no stop has fired. -/
noncomputable def consecSilence (thr : ℝ) (bs : List LevelBlock) : ℕ :=
  bs.foldl (fun c b => if max b.lvlL b.lvlR < thr then c + 1 else 0) 0

theorem autoStep_of_stopped (thr minDur : ℝ) (n : ℕ) (st : AutoState)
    (b : LevelBlock) (h : st.stopped = true) :
    autoStep thr minDur n st b = st := by
  rw [autoStep, if_pos h]

theorem autoRun_append (thr minDur : ℝ) (n : ℕ) (bs : List LevelBlock)
    (b : LevelBlock) :
    autoRun thr minDur n (bs ++ [b]) =
      autoStep thr minDur n (autoRun thr minDur n bs) b := by
  rw [autoRun, autoRun, List.foldl_append]
  rfl

theorem consecSilence_append (thr : ℝ) (bs : List LevelBlock) (b : LevelBlock) :
    consecSilence thr (bs ++ [b]) =
      if max b.lvlL b.lvlR < thr then consecSilence thr bs + 1 else 0 := by
  rw [consecSilence, consecSilence, List.foldl_append]
  rfl

theorem autoStep_of_not_stopped (thr minDur : ℝ) (n : ℕ) (st : AutoState)
    (b : LevelBlock) (h : st.stopped = false) :
    ((autoStep thr minDur n st b).stopped = true ↔
      (max b.lvlL b.lvlR < thr ∧ n ≤ st.silenceFrames + 1 ∧ minDur ≤ b.elapsed)) ∧
    (autoStep thr minDur n st b).silenceFrames =
      (if max b.lvlL b.lvlR < thr then st.silenceFrames + 1 else 0) := by
  rw [autoStep, if_neg (by rw [h]; exact Bool.false_ne_true)]
  by_cases hs : max b.lvlL b.lvlR < thr
  · rw [if_pos hs, if_pos hs]
    by_cases hn : n ≤ st.silenceFrames + 1
    · rw [if_pos hn]
      by_cases hm : minDur ≤ b.elapsed
      · rw [if_pos hm]
        exact ⟨⟨fun _ => ⟨hs, hn, hm⟩, fun _ => rfl⟩, rfl⟩
      · rw [if_neg hm]
        refine ⟨⟨fun hc => absurd hc Bool.false_ne_true, ?_⟩, rfl⟩
        rintro ⟨_, _, hm'⟩
        exact absurd hm' hm
    · rw [if_neg hn]
      refine ⟨⟨fun hc => absurd hc Bool.false_ne_true, ?_⟩, rfl⟩
      rintro ⟨_, hn', _⟩
      exact absurd hn' hn
  · rw [if_neg hs, if_neg hs]
    refine ⟨⟨fun hc => absurd hc Bool.false_ne_true, ?_⟩, rfl⟩
    rintro ⟨hs', _, _⟩
    exact absurd hs' hs

theorem autoRun_silenceFrames (thr minDur : ℝ) (n : ℕ) (bs : List LevelBlock)
    (h : (autoRun thr minDur n bs).stopped = false) :
    (autoRun thr minDur n bs).silenceFrames = consecSilence thr bs := by
  induction bs using List.reverseRecOn with
  | nil => rfl
  | append_singleton bs b ih =>
    rw [autoRun_append] at h ⊢
    cases hst : (autoRun thr minDur n bs).stopped with
    | true =>
      rw [autoStep_of_stopped thr minDur n _ b hst, hst] at h
      exact absurd h (by simp)
    | false =>
      rw [(autoStep_of_not_stopped thr minDur n _ b hst).2, ih hst,
        consecSilence_append]

theorem autoRun_stopped_iff (thr minDur : ℝ) (n : ℕ) (bs : List LevelBlock) :
    (autoRun thr minDur n bs).stopped = true ↔
      ∃ i : ℕ, ∃ hi : i < bs.length,
        max (bs.get ⟨i, hi⟩).lvlL (bs.get ⟨i, hi⟩).lvlR < thr ∧
        n ≤ consecSilence thr (bs.take (i + 1)) ∧
        minDur ≤ (bs.get ⟨i, hi⟩).elapsed := by
  induction bs using List.reverseRecOn with
  | nil =>
    constructor
    · intro hc
      exact absurd hc (by simp [autoRun])
    · rintro ⟨i, hi, -⟩
      exact absurd hi (by simp)
  | append_singleton bs b ih =>
    rw [autoRun_append]
    cases hst : (autoRun thr minDur n bs).stopped with
    | true =>
      rw [autoStep_of_stopped thr minDur n _ b hst, hst]
      simp only [true_iff]
      rcases ih.mp hst with ⟨i, hi, hs, hn, hm⟩
      have hi' : i < (bs ++ [b]).length := by
        rw [List.length_append]
        omega
      refine ⟨i, hi', ?_, ?_, ?_⟩
      · rw [List.get_append i hi]
        exact hs
      · rw [List.take_append_of_le_length (by omega : i + 1 ≤ bs.length)]
        exact hn
      · rw [List.get_append i hi]
        exact hm
    | false =>
      have hstep := autoStep_of_not_stopped thr minDur n _ b hst
      rw [hstep.1, autoRun_silenceFrames thr minDur n bs hst]
      constructor
      · rintro ⟨hs, hn, hm⟩
        have hlast : (bs ++ [b]).length = bs.length + 1 := by simp
        refine ⟨bs.length, by omega, ?_, ?_, ?_⟩
        · have : (bs ++ [b]).get ⟨bs.length, by omega⟩ = b := by
            simp [List.getElem_concat_length]
          rw [this]
          exact hs
        · rw [show bs.length + 1 = (bs ++ [b]).length from by simp, List.take_length,
            consecSilence_append, if_pos hs]
          exact hn
        · have : (bs ++ [b]).get ⟨bs.length, by omega⟩ = b := by
            simp [List.getElem_concat_length]
          rw [this]
          exact hm
      · rintro ⟨i, hi, hs, hn, hm⟩
        rw [List.length_append, List.length_singleton] at hi
        by_cases hilt : i < bs.length
        · exfalso
          have : (autoRun thr minDur n bs).stopped = true := by
            apply ih.mpr
            refine ⟨i, hilt, ?_, ?_, ?_⟩
            · rw [List.get_append i hilt] at hs
              exact hs
            · rw [List.take_append_of_le_length (by omega : i + 1 ≤ bs.length)] at hn
              exact hn
            · rw [List.get_append i hilt] at hm
              exact hm
          rw [hst] at this
          exact absurd this (by simp)
        · have hieq : i = bs.length := by omega
          subst hieq
          have hb : (bs ++ [b]).get ⟨bs.length, by simp⟩ = b := by
            simp [List.getElem_concat_length]
          rw [hb] at hs hm
          rw [show bs.length + 1 = (bs ++ [b]).length from by simp, List.take_length,
            consecSilence_append, if_pos hs] at hn
          exact ⟨hs, hn, hm⟩

/-- C8: while a session is active with auto-mode on, `recording_thread`
requests a stop exactly when some handled block has max channel level below
the silence threshold, the consecutive-silence count through that block has
reached `silence_frame_threshold` (the frame-equivalent of
`silence_duration`), AND the elapsed recording time at that block is at
least `min_recording_duration`; reaching the count early merely defers the
stop until the minimum duration is also met (the counter keeps running over
silent blocks), and any block at or above the threshold resets the
consecutive count to zero (visible in `consecSilence`). -/
theorem auto_record_stop_iff (thr minDur : ℝ) (dur : ℚ) (bs : List LevelBlock) :
    (autoRun thr minDur (silenceFrameThreshold dur) bs).stopped = true ↔
      ∃ i : ℕ, ∃ hi : i < bs.length,
        max (bs.get ⟨i, hi⟩).lvlL (bs.get ⟨i, hi⟩).lvlR < thr ∧
        silenceFrameThreshold dur ≤ consecSilence thr (bs.take (i + 1)) ∧
        minDur ≤ (bs.get ⟨i, hi⟩).elapsed :=
  autoRun_stopped_iff thr minDur (silenceFrameThreshold dur) bs
